import Mathlib

/-!
Shallow embedding of the domain-availability checker repository.

JavaScript strings are modelled as lists of characters (`Str`); the ASCII
simple case mapping of `String.prototype.toLowerCase` is modelled by
`Char.toLower`, whose Lean definition is exactly the ASCII mapping.
Network effects (fetch outcomes, generative-model responses, JSON parsing
of schema-constrained replies) are modelled as explicit parameters, so that
every function of the source becomes a total Lean function of its inputs
and of the behaviour of the external world.
-/

namespace DomainCheck

/-- JavaScript strings, modelled as lists of UTF-16-ish characters. -/
abbrev Str := List Char

/-- The closed availability enumeration used throughout the sources
(`'Available' | 'Unavailable' | 'Timeout' | 'Error'`). -/
inductive Availability where
  | Available
  | Unavailable
  | Timeout
  | Err
  deriving DecidableEq, Repr

/-- One entry of the backend response: `{ domain, availability }`. -/
structure DomainResult where
  domain : Str
  availability : Availability
  deriving DecidableEq, Repr

/-- Outcome of the `fetch` + `response.json()` pair inside
`checkDomainAvailability` (src/api/check-domain.js, lines 2-27):
either the resolver replied and the body parsed to JSON whose `Status`
field (when present and numeric) is recorded, or the abort controller
fired (`AbortError`, the 3000 ms timeout), or some other transport or
parse failure was thrown. -/
inductive FetchOutcome where
  | resolved (status : Option Int)
  | abortError
  | otherError
  deriving DecidableEq, Repr

/-- Embedding of `checkDomainAvailability` from src/api/check-domain.js
(lines 2-27): `data.Status === 3` yields `Available`, any other resolved
response yields `Unavailable`; the catch branch maps `AbortError` to
`Timeout` and anything else to `Error`. The function is total: every
failure path of the source resolves to a status value. -/
def checkDomainAvailability (domain : Str) (outcome : FetchOutcome) : DomainResult :=
  match outcome with
  | .resolved status =>
      if status = some 3 then ⟨domain, .Available⟩ else ⟨domain, .Unavailable⟩
  | .abortError => ⟨domain, .Timeout⟩
  | .otherError => ⟨domain, .Err⟩

/-- Embedding of the check endpoint body (src/api/check-domain.js, lines
42-44): `domains.map(checkDomainAvailability)` awaited with `Promise.all`.
The environment `env` records, per domain, what the network did. -/
def checkDomainsEndpoint (env : Str → FetchOutcome) (domains : List Str) :
    List DomainResult :=
  domains.map (fun d => checkDomainAvailability d (env d))

/-- The exact substring the Namecheap variant searches for, mirroring the
template literal of src/api/check-domains.js line 125. -/
def checkTag (domain : Str) : Str :=
  ("<DomainCheckResult Domain=\"").data ++ domain ++ ("\" Available=\"true\"").data

/-- Embedding of the Namecheap results map (src/api/check-domains.js,
lines 124-130): one entry per input domain, classified by a substring
test against the XML response body. -/
def namecheapResults (domains : List Str) (xmlText : Str) : List DomainResult :=
  domains.map (fun d =>
    ⟨d, if checkTag d <:+: xmlText then .Available else .Unavailable⟩)

/-- Embedding of `String.prototype.trim`: whitespace removed from both
ends (the ASCII whitespace characters recognised by `Char.isWhitespace`). -/
def trim (s : Str) : Str :=
  (((s.dropWhile Char.isWhitespace).reverse).dropWhile Char.isWhitespace).reverse

/-- First half of the regex replace in `normalizeDomain` (src/index.js
line 71): the anchored optional group `(https?:\/\/)?` removes one leading
scheme when present. -/
def stripScheme (s : Str) : Str :=
  if s.take 7 = ("http://").data then s.drop 7
  else if s.take 8 = ("https://").data then s.drop 8
  else s

/-- Full regex replace of src/index.js line 71: one optional scheme, then
one optional leading `www.`. -/
def stripSchemeWww (s : Str) : Str :=
  if (stripScheme s).take 4 = ("www.").data then (stripScheme s).drop 4
  else stripScheme s

/-- Embedding of `normalizeDomain` (src/index.js lines 69-74): trim,
lowercase, strip one optional scheme and one optional `www.`, then keep
only the part before the first `/` (`split('/')[0]`). -/
def normalizeDomain (s : Str) : Str :=
  (stripSchemeWww ((trim s).map Char.toLower)).takeWhile (fun c => c != '/')

/-- Embedding of `String.prototype.split(sep)` for a one-character
separator: every separator occurrence splits, empty segments are kept,
and the empty string yields `[""]`. -/
def splitOnChar (sep : Char) : Str → List Str
  | [] => [[]]
  | c :: rest =>
      if c = sep then [] :: splitOnChar sep rest
      else
        match splitOnChar sep rest with
        | [] => [[c]]
        | r :: rs => (c :: r) :: rs

/-- Worker of the `Set`-based deduplication: `seen` holds the elements
already emitted. -/
def dedupFirstAux {α : Type} [DecidableEq α] (seen : List α) : List α → List α
  | [] => []
  | a :: l =>
      if a ∈ seen then dedupFirstAux seen l
      else a :: dedupFirstAux (a :: seen) l

/-- Embedding of `[...new Set(xs)]`: deduplication keeping the first
occurrence of each element, in first-seen order (JavaScript `Set`
iteration order is insertion order). -/
def dedupFirst {α : Type} [DecidableEq α] (l : List α) : List α :=
  dedupFirstAux [] l

/-- The checker-mode raw lines (src/index.js line 174): split the textarea
value on newlines, trim each line, drop empty lines (`filter(Boolean)` is
applied before normalization). -/
def checkerRawLines (input : Str) : List Str :=
  ((splitOnChar (Char.ofNat 10) input).map trim).filter (fun l => l ≠ [])

/-- The checker-mode domain set (src/index.js line 175):
`[...new Set(rawDomains.map(normalizeDomain))]`. -/
def parseCheckerInput (input : Str) : List Str :=
  dedupFirst ((checkerRawLines input).map normalizeDomain)

/-- Response parsing of `generateDomainIdeas` (src/index.js line 109):
`response.text.trim().split('\n').filter(Boolean)` — split on line
breaks, discard empty lines. -/
def parseGenerated (text : Str) : List Str :=
  (splitOnChar (Char.ofNat 10) (trim text)).filter (fun l => l ≠ [])

/-- Embedding of `generateDomainIdeas` (src/index.js lines 99-115): the
model response is parsed line-wise; the catch branch of an upstream
failure returns the empty list. -/
def generateDomainIdeas (response : Option Str) : List Str :=
  match response with
  | some text => parseGenerated text
  | none => []

/-- The generator-mode deduplication step of the streaming handler
(src/unnamed/part_000 lines 60-61): `[...new Set(generatedDomains)]`. -/
def generatorDomainsToCheck (response : Option Str) : List Str :=
  dedupFirst (generateDomainIdeas response)

/-- Embedding of the chunking of the batch loop (src/index.js lines
204-210): `for (let i = 0; i < total; i += BATCH_SIZE)` with
`domains.slice(i, i + BATCH_SIZE)`. For `bs = 0` the JavaScript loop
would not terminate; the claims only concern `bs ≥ 1`, so the
totalization returns `[]` there. -/
def chunks {α : Type} (bs : Nat) (l : List α) : List (List α) :=
  if h : l.length = 0 ∨ bs = 0 then []
  else l.take bs :: chunks bs (l.drop bs)
termination_by l.length
decreasing_by
  push_neg at h
  simp only [List.length_drop]
  omega

/-- One progress update of the batch loop (src/index.js line 218):
`checkedCount = Math.min(checkedCount + batch.length, totalDomains)`. -/
def progressStep (total : Nat) (acc : Nat) (batch : List Str) : Nat :=
  min (acc + batch.length) total

/-- The successive `checkedCount` values emitted after each chunk of one
run (src/index.js lines 218-220). -/
def checkedCounts (total : Nat) (batches : List (List Str)) : List Nat :=
  (batches.scanl (progressStep total) 0).tail

/-- The value of `checkedCount` when the loop leaves the given list of
batches. -/
def finalCheckedCount (total : Nat) (batches : List (List Str)) : Nat :=
  batches.foldl (progressStep total) 0

/-- Embedding of the cancellable batch loop (src/index.js lines 204-221):
before starting the chunk with index `k` the abort signal is consulted;
if set, the loop breaks with `isCancelled = true`. Returns the list of
chunks actually dispatched and the cancellation flag. -/
def runChunks (signal : Nat → Bool) : Nat → List (List Str) → List (List Str) × Bool
  | _, [] => ([], false)
  | k, b :: rest =>
      if signal k then ([], true)
      else
        let r := runChunks signal (k + 1) rest
        (b :: r.1, r.2)

/-- The available domains extracted from one settled chunk (src/index.js
lines 213-215): filter on `availability === 'Available'`, map to the
domain. -/
def availableInBatch (env : Str → FetchOutcome) (batch : List Str) : List Str :=
  ((checkDomainsEndpoint env batch).filter
    (fun r => decide (r.availability = Availability.Available))).map
    (fun r => r.domain)

/-- The accumulated `allAvailableDomains` after processing the given
chunks (src/index.js line 216: `allAvailableDomains.push(...)` per
chunk). -/
def availableFrom (env : Str → FetchOutcome) (processed : List (List Str)) : List Str :=
  (processed.map (availableInBatch env)).flatten

/-- One category group of the categorizer response:
`{ category, domains }`. -/
structure CategoryGroup where
  category : Str
  domains : List Str
  deriving DecidableEq, Repr

/-- First alternative of the global regex in `safeJsonParse`
(src/index.js line 121): an anchored leading "```json" fence with
trailing whitespace is removed. -/
def stripFenceStart (s : Str) : Str :=
  if s.take 7 = ("```json").data then (s.drop 7).dropWhile Char.isWhitespace else s

/-- Second alternative of the same regex: a trailing "```" fence followed
only by whitespace is removed. -/
def stripFenceEnd (s : Str) : Str :=
  let r := s.reverse.dropWhile Char.isWhitespace
  if r.take 3 = ("```").data then (r.drop 3).reverse else s

/-- The fence stripping of `safeJsonParse` (src/index.js line 121):
`jsonString.trim().replace(/^```json\s*|```\s*$/g, '')`. -/
def stripCodeFences (s : Str) : Str :=
  stripFenceEnd (stripFenceStart (trim s))

/-- Embedding of `safeJsonParse` (src/index.js lines 120-128). The
external `JSON.parse` plus schema decoding is abstracted as the `parse`
parameter; `none` is the thrown-error path. -/
def safeJsonParse (parse : Str → Option (List CategoryGroup)) (s : Str) :
    Option (List CategoryGroup) :=
  parse (stripCodeFences s)

/-- Outcome of the categorization model call: either the request itself
failed (rejected promise), or it produced a response body. -/
inductive CatResponse where
  | failure
  | text (body : Str)
  deriving DecidableEq, Repr

/-- Embedding of `categorizeDomains` (src/index.js lines 133-161): empty
input short-circuits to `[]`; a failed call or a body whose cleaned text
does not parse falls into the catch branch, which returns the single
fallback group `{category: "Available Domains", domains}`. -/
def categorizeDomains (parse : Str → Option (List CategoryGroup))
    (resp : CatResponse) (domains : List Str) : List CategoryGroup :=
  if domains.isEmpty then []
  else
    match resp with
    | .failure => [⟨("Available Domains").data, domains⟩]
    | .text body =>
        match safeJsonParse parse body with
        | some groups => groups
        | none => [⟨("Available Domains").data, domains⟩]

/-- Embedding of the `Promise.all` result collection of the check
endpoint (src/api/check-domain.js lines 43-44): each probe completes at
some point in time carrying its input position, and its result is stored
at that position in the result array. `completions` lists the settled
probes in completion order. -/
def settlePromises (n : Nat) (completions : List (Nat × DomainResult)) :
    List (Option DomainResult) :=
  completions.foldl (fun acc p => acc.set p.1 (some p.2)) (List.replicate n none)

end DomainCheck

namespace DomainCheck

/-- Concatenating the consecutive chunks of the batch loop gives back the
input list, for any positive batch size. -/
theorem chunks_flatten {α : Type} (bs : Nat) (hbs : 1 ≤ bs) (l : List α) :
    (chunks bs l).flatten = l := by
  induction l using chunks.induct bs with
  | case1 l h =>
      rcases h with h | h
      · rw [chunks, dif_pos (Or.inl h)]
        exact (List.eq_nil_of_length_eq_zero h).symm
      · omega
  | case2 l h ih =>
      rw [chunks, dif_neg h]
      simp only [List.flatten_cons, ih]
      exact List.take_append_drop bs l

/-- The chunk lengths of the batch loop sum to the input length. -/
theorem chunks_length_sum {α : Type} (bs : Nat) (hbs : 1 ≤ bs) (l : List α) :
    (List.map List.length (chunks bs l)).sum = l.length := by
  have h := congrArg List.length (chunks_flatten bs hbs l)
  simpa [List.length_flatten] using h

/-- The probe result always carries the probed domain. -/
theorem checkDomainAvailability_domain (d : Str) (o : FetchOutcome) :
    (checkDomainAvailability d o).domain = d := by
  cases o with
  | resolved st => by_cases h : st = some 3 <;> simp [checkDomainAvailability, h]
  | abortError => rfl
  | otherError => rfl

/-- The domains reported by the check endpoint are exactly the queried
batch, in order. -/
theorem checkDomainsEndpoint_domains (env : Str → FetchOutcome) (batch : List Str) :
    (checkDomainsEndpoint env batch).map (fun r => r.domain) = batch := by
  simp only [checkDomainsEndpoint, List.map_map]
  have hfun : ∀ d ∈ batch,
      ((fun (r : DomainResult) => r.domain) ∘ fun d => checkDomainAvailability d (env d)) d
        = id d := by
    intro d _
    exact checkDomainAvailability_domain d (env d)
  rw [List.map_congr_left hfun, List.map_id]

/-- Claim C1 — Batch Runner coverage: for every input list and every
batch size of at least one, the chunked check loop without cancellation
probes each input domain exactly once — the concatenation of the
per-chunk result domains equals the input list, so on unique inputs there
are no duplicates and no omissions. -/
theorem batch_runner_coverage (env : Str → FetchOutcome) (bs : Nat) (l : List Str)
    (hbs : 1 ≤ bs) :
    ((chunks bs l).map (fun b => (checkDomainsEndpoint env b).map
        (fun r => r.domain))).flatten = l
    ∧ (l.Nodup →
        ((chunks bs l).map (fun b => (checkDomainsEndpoint env b).map
            (fun r => r.domain))).flatten.Nodup) := by
  have h1 : (chunks bs l).map
      (fun b => (checkDomainsEndpoint env b).map (fun r => r.domain)) = chunks bs l :=
    (List.map_congr_left (g := id)
      (fun b _ => checkDomainsEndpoint_domains env b)).trans (List.map_id _)
  refine ⟨?_, ?_⟩
  · rw [h1]
    exact chunks_flatten bs hbs l
  · intro hnd
    rw [h1, chunks_flatten bs hbs l]
    exact hnd

/-- Witness for C1 at batch size 2 and a three-domain input. -/
theorem batch_runner_coverage_witness :
    1 ≤ 2
    ∧ ((chunks 2 [("a.io").data, ("b.io").data, ("c.io").data]).map
        (fun b => (checkDomainsEndpoint (fun _ => .abortError) b).map
          (fun r => r.domain))).flatten
        = [("a.io").data, ("b.io").data, ("c.io").data] :=
  ⟨by decide,
   (batch_runner_coverage (fun _ => .abortError) 2
      [("a.io").data, ("b.io").data, ("c.io").data] (by decide)).1⟩

/-- Folding the progress update over a list of batches yields the capped
running sum of the batch lengths. -/
theorem foldl_progressStep (total : Nat) :
    ∀ (batches : List (List Str)) (a : Nat), a ≤ total →
      batches.foldl (progressStep total) a
        = min (a + (List.map List.length batches).sum) total := by
  intro batches
  induction batches with
  | nil =>
      intro a ha
      simp only [List.foldl_nil, List.map_nil, List.sum_nil, Nat.add_zero]
      omega
  | cons b bs ih =>
      intro a ha
      simp only [List.foldl_cons, List.map_cons, List.sum_cons]
      rw [show progressStep total a b = min (a + b.length) total from rfl,
        ih _ (Nat.min_le_right _ _)]
      omega

/-- The head of a left scan is its starting accumulator. -/
theorem head?_scanl {α β : Type} (f : α → β → α) (a : α) (l : List β) :
    (l.scanl f a).head? = some a := by
  cases l <;> simp [List.scanl]

/-- The whole scan of progress updates is monotonically non-decreasing as
long as the accumulator starts within the total. -/
theorem scanl_progressStep_chain (total : Nat) :
    ∀ (batches : List (List Str)) (a : Nat), a ≤ total →
      List.Chain' (· ≤ ·) (batches.scanl (progressStep total) a) := by
  intro batches
  induction batches with
  | nil =>
      intro a _
      simp [List.scanl]
  | cons b bs ih =>
      intro a ha
      rw [List.scanl]
      rw [List.chain'_cons']
      refine ⟨?_, ih _ (Nat.min_le_right _ _)⟩
      intro y hy
      rw [head?_scanl] at hy
      cases hy
      show a ≤ progressStep total a b
      simp only [progressStep]
      omega

/-- Claim C3 — progress monotonicity: within one uncancelled run the
successive `checkedCount` values emitted after each chunk are
monotonically non-decreasing and the final value equals the number of
input domains; in a cancelled run (the loop leaves after any prefix of
the chunks) the final value is at most that number. -/
theorem progress_monotone_final (bs : Nat) (l : List Str) (hbs : 1 ≤ bs) :
    List.Chain' (· ≤ ·) (checkedCounts l.length (chunks bs l))
    ∧ finalCheckedCount l.length (chunks bs l) = l.length
    ∧ ∀ k, finalCheckedCount l.length ((chunks bs l).take k) ≤ l.length := by
  refine ⟨List.Chain'.tail (scanl_progressStep_chain _ _ 0 (Nat.zero_le _)), ?_, ?_⟩
  · rw [finalCheckedCount, foldl_progressStep _ _ 0 (Nat.zero_le _),
      chunks_length_sum bs hbs l]
    simp
  · intro k
    rw [finalCheckedCount, foldl_progressStep _ _ 0 (Nat.zero_le _)]
    exact Nat.min_le_right _ _

/-- Witness for C3 at batch size 2 and a three-domain input. -/
theorem progress_monotone_final_witness :
    1 ≤ 2
    ∧ finalCheckedCount 3 (chunks 2 [("a.io").data, ("b.io").data, ("c.io").data]) = 3 :=
  ⟨by decide,
   (progress_monotone_final 2 [("a.io").data, ("b.io").data, ("c.io").data]
      (by decide)).2.1⟩

/-- Claim C2 — Prober classification and totality: `probe` is a total
function of the domain and the transport outcome; resolver status 3 yields
`Available`, any other resolved status yields `Unavailable`, an exceeded
timeout budget (`AbortError`) yields `Timeout`, any other transport or
parse failure yields `Error`; the reported domain is always the input
domain. -/
theorem prober_classification_total (d : Str) :
    (checkDomainAvailability d (.resolved (some 3))).availability = .Available
    ∧ (∀ st : Option Int, st ≠ some 3 →
        (checkDomainAvailability d (.resolved st)).availability = .Unavailable)
    ∧ (checkDomainAvailability d .abortError).availability = .Timeout
    ∧ (checkDomainAvailability d .otherError).availability = .Err
    ∧ (∀ o : FetchOutcome, (checkDomainAvailability d o).domain = d) := by
  refine ⟨rfl, ?_, rfl, rfl, ?_⟩
  · intro st hst
    simp [checkDomainAvailability, hst]
  · intro o
    cases o with
    | resolved st =>
        by_cases h : st = some 3 <;> simp [checkDomainAvailability, h]
    | abortError => rfl
    | otherError => rfl

/-- Witness for C2 at a concrete domain and the concrete non-NXDOMAIN
status 0. -/
theorem prober_classification_total_witness :
    ((some 0 : Option Int) ≠ some 3)
    ∧ (checkDomainAvailability ("a.com").data (.resolved (some 0))).availability
        = .Unavailable :=
  ⟨by decide, (prober_classification_total ("a.com").data).2.1 (some 0) (by decide)⟩

/-- Claim C9 — the XML registrar backend conforms to the Prober contract:
exactly one result per input domain, in input order, with the result's
domain field equal to the input domain, and a domain is classified
`Available` if and only if the response body contains the exact substring
`<DomainCheckResult Domain="{domain}" Available="true"`, `Unavailable`
otherwise; the classifier is a total function (no raised errors). -/
theorem xml_backend_contract (ds : List Str) (xml : Str) :
    (namecheapResults ds xml).map (fun r => r.domain) = ds
    ∧ (∀ r ∈ namecheapResults ds xml,
        (r.availability = .Available ↔ checkTag r.domain <:+: xml)
        ∧ (r.availability ≠ .Available → r.availability = .Unavailable)) := by
  constructor
  · simp only [namecheapResults, List.map_map]
    exact (List.map_congr_left (fun d _ => rfl)).trans (List.map_id ds)
  · intro r hr
    simp only [namecheapResults, List.mem_map] at hr
    obtain ⟨d, _, rfl⟩ := hr
    by_cases h : checkTag d <:+: xml <;> simp [h]

/-- Once the abort signal reports true at a check point, the number of
chunks the loop dispatches from that point on is bounded by the distance
to that check point: a set signal never lets a later chunk start. -/
theorem runChunks_length_le (signal : Nat → Bool) :
    ∀ (batches : List (List Str)) (k0 m : Nat), signal (k0 + m) = true →
      (runChunks signal k0 batches).1.length ≤ m := by
  intro batches
  induction batches with
  | nil =>
      intro k0 m _
      simp [runChunks]
  | cons b rest ih =>
      intro k0 m hsig
      by_cases h0 : signal k0 = true
      · simp [runChunks, h0]
      · have hm : m ≠ 0 := by
          intro hz
          subst hz
          exact h0 (by simpa using hsig)
        have hrec := ih (k0 + 1) (m - 1)
          (by rw [show k0 + 1 + (m - 1) = k0 + m by omega]; exact hsig)
        simp only [runChunks, h0, Bool.false_eq_true, if_false, List.length_cons]
        omega

/-- Claim C4 — cancellation at chunk boundaries: if the abort signal is
set before any chunk starts, the run dispatches zero chunks (hence zero
probes), terminates with the cancelled flag, and its available-domain
accumulator stays empty; moreover whenever the signal reports true at
index `k`, no chunk beyond the first `k` is ever started. -/
theorem cancellation_at_chunk_boundaries (env : Str → FetchOutcome)
    (signal : Nat → Bool) (batches : List (List Str)) :
    (signal 0 = true → batches ≠ [] →
      runChunks signal 0 batches = ([], true)
      ∧ availableFrom env (runChunks signal 0 batches).1 = [])
    ∧ (∀ k, signal k = true → (runChunks signal 0 batches).1.length ≤ k) := by
  constructor
  · intro h0 hne
    have hrun : runChunks signal 0 batches = ([], true) := by
      cases batches with
      | nil => exact absurd rfl hne
      | cons b rest => simp [runChunks, h0]
    exact ⟨hrun, by rw [hrun]; rfl⟩
  · intro k hk
    exact runChunks_length_le signal batches 0 k (by simpa using hk)

/-- Witness for C4: a permanently set signal against a one-chunk batch
list cancels the run with no processed chunks and no available domains. -/
theorem cancellation_at_chunk_boundaries_witness :
    ((fun _ : Nat => true) 0 = true)
    ∧ ([[("a.io").data]] ≠ ([] : List (List Str)))
    ∧ runChunks (fun _ => true) 0 [[("a.io").data]] = ([], true)
    ∧ availableFrom (fun _ => .abortError)
        (runChunks (fun _ => true) 0 [[("a.io").data]]).1 = [] := by
  refine ⟨rfl, by decide, ?_⟩
  have h := (cancellation_at_chunk_boundaries (fun _ => .abortError)
    (fun _ => true) [[("a.io").data]]).1 rfl (by decide)
  exact ⟨h.1, h.2⟩

/-- Claim C5 — Categorizer fallback: for every non-empty input list, if
the categorization call fails or its response body does not decode,
`categorizeDomains` returns exactly one group labeled "Available Domains"
whose domain sequence is the input list in input order; the function is
total, so a categorization failure never aborts the pipeline. -/
theorem categorizer_fallback (parse : Str → Option (List CategoryGroup))
    (resp : CatResponse) (ds : List Str) (hne : ds ≠ [])
    (hfail : resp = .failure
      ∨ ∃ b, resp = .text b ∧ safeJsonParse parse b = none) :
    categorizeDomains parse resp ds = [⟨("Available Domains").data, ds⟩] := by
  have hds : ds.isEmpty = false := by
    cases ds with
    | nil => exact absurd rfl hne
    | cons a l => rfl
  rcases hfail with rfl | ⟨b, rfl, hb⟩
  · simp [categorizeDomains, hds]
  · simp [categorizeDomains, hds, hb]

/-- Witness for C5: a failed call on the two-domain input of the spec
example produces the single fallback group. -/
theorem categorizer_fallback_witness :
    ([("a.com").data, ("b.com").data] ≠ ([] : List Str))
    ∧ categorizeDomains (fun _ => none) .failure [("a.com").data, ("b.com").data]
        = [⟨("Available Domains").data, [("a.com").data, ("b.com").data]⟩] :=
  ⟨by decide,
   categorizer_fallback (fun _ => none) .failure [("a.com").data, ("b.com").data]
     (by decide) (Or.inl rfl)⟩

/-- Membership in the deduplication worker: an element is kept exactly
when it occurs in the input and was not already seen. -/
theorem mem_dedupFirstAux {α : Type} [DecidableEq α] {x : α} :
    ∀ {l seen : List α}, x ∈ dedupFirstAux seen l ↔ x ∈ l ∧ x ∉ seen := by
  intro l
  induction l with
  | nil =>
      intro seen
      simp [dedupFirstAux]
  | cons a l ih =>
      intro seen
      by_cases ha : a ∈ seen
      · rw [dedupFirstAux, if_pos ha, ih]
        constructor
        · rintro ⟨h1, h2⟩
          exact ⟨List.mem_cons_of_mem _ h1, h2⟩
        · rintro ⟨h1, h2⟩
          rcases List.mem_cons.1 h1 with rfl | h1
          · exact absurd ha h2
          · exact ⟨h1, h2⟩
      · rw [dedupFirstAux, if_neg ha]
        constructor
        · intro hx
          rcases List.mem_cons.1 hx with rfl | hx
          · exact ⟨List.mem_cons_self _ _, ha⟩
          · have hx2 := ih.1 hx
            exact ⟨List.mem_cons_of_mem _ hx2.1,
              fun hs => hx2.2 (List.mem_cons_of_mem _ hs)⟩
        · rintro ⟨h1, h2⟩
          rcases List.mem_cons.1 h1 with rfl | h1
          · exact List.mem_cons_self _ _
          · by_cases hxa : x = a
            · subst hxa
              exact List.mem_cons_self _ _
            · refine List.mem_cons_of_mem _ (ih.2 ⟨h1, fun hs => ?_⟩)
              rcases List.mem_cons.1 hs with h | h
              · exact hxa h
              · exact h2 h

/-- The deduplication worker is order preserving: its output is a
sublist of its input. -/
theorem dedupFirstAux_sublist {α : Type} [DecidableEq α] :
    ∀ (l seen : List α), (dedupFirstAux seen l).Sublist l := by
  intro l
  induction l with
  | nil =>
      intro seen
      simp [dedupFirstAux]
  | cons a l ih =>
      intro seen
      rw [dedupFirstAux]
      by_cases ha : a ∈ seen
      · rw [if_pos ha]
        exact (ih seen).cons a
      · rw [if_neg ha]
        exact List.Sublist.cons₂ a (ih (a :: seen))

/-- The deduplication worker emits no duplicates. -/
theorem nodup_dedupFirstAux {α : Type} [DecidableEq α] :
    ∀ (l seen : List α), (dedupFirstAux seen l).Nodup := by
  intro l
  induction l with
  | nil =>
      intro seen
      simp [dedupFirstAux]
  | cons a l ih =>
      intro seen
      rw [dedupFirstAux]
      by_cases ha : a ∈ seen
      · rw [if_pos ha]
        exact ih seen
      · rw [if_neg ha]
        refine List.nodup_cons.2 ⟨?_, ih _⟩
        intro hmem
        exact (mem_dedupFirstAux.1 hmem).2 (List.mem_cons_self a seen)

/-- Set-based deduplication is order preserving: the result is a sublist
of the input. -/
theorem dedupFirst_sublist {α : Type} [DecidableEq α] (l : List α) :
    (dedupFirst l).Sublist l :=
  dedupFirstAux_sublist l []

/-- Set-based deduplication keeps exactly the elements of the input. -/
theorem mem_dedupFirst {α : Type} [DecidableEq α] {a : α} {l : List α} :
    a ∈ dedupFirst l ↔ a ∈ l := by
  rw [dedupFirst, mem_dedupFirstAux]
  simp

/-- Set-based deduplication produces a duplicate-free list. -/
theorem nodup_dedupFirst {α : Type} [DecidableEq α] (l : List α) :
    (dedupFirst l).Nodup :=
  nodup_dedupFirstAux l []

/-- Claim C8 — Generator parsing: the generator splits the model response
on line breaks, discards empty lines, and deduplicates the candidates
while preserving first-seen order (duplicate-free sublist with the same
members); on upstream failure it returns the empty sequence, so the run
ends with nothing to check instead of crashing. -/
theorem generator_parsing (t : Str) :
    generateDomainIdeas none = []
    ∧ (generatorDomainsToCheck (some t)).Nodup
    ∧ (generatorDomainsToCheck (some t)).Sublist (parseGenerated t)
    ∧ (∀ d, d ∈ parseGenerated t ↔ d ∈ generatorDomainsToCheck (some t))
    ∧ (∀ d ∈ generatorDomainsToCheck (some t),
        d ≠ [] ∧ d ∈ splitOnChar (Char.ofNat 10) (trim t)) := by
  refine ⟨rfl, nodup_dedupFirst _, dedupFirst_sublist _, ?_, ?_⟩
  · intro d
    exact (mem_dedupFirst (l := parseGenerated t)).symm
  · intro d hd
    have hmem : d ∈ parseGenerated t := mem_dedupFirst.1 hd
    have h2 := List.mem_filter.1 hmem
    refine ⟨by simpa using h2.2, h2.1⟩

/-- Witness for C8: a response with a blank line and a repeated candidate;
the repeated candidate survives parsing exactly once and is a non-empty
line of the split response. -/
theorem generator_parsing_witness :
    ("a.com").data ∈ generatorDomainsToCheck (some ("a.com\n\nb.com\na.com").data)
    ∧ (("a.com").data ≠ []
        ∧ ("a.com").data
          ∈ splitOnChar (Char.ofNat 10) (trim ("a.com\n\nb.com\na.com").data)) :=
  ⟨by decide,
   (generator_parsing ("a.com\n\nb.com\na.com").data).2.2.2.2 _ (by decide)⟩

/-- The ASCII simple case mapping is idempotent. -/
theorem toLower_fix (c : Char) : c.toLower.toLower = c.toLower := by
  have key : ∀ n : Nat, 65 ≤ n → n ≤ 90 →
      (Char.ofNat (n + 32)).toLower = Char.ofNat (n + 32) := by
    intro n h1 h2
    interval_cases n <;> decide
  by_cases h : c.toNat ≥ 65 ∧ c.toNat ≤ 90
  · have hc : c.toLower = Char.ofNat (c.toNat + 32) := by
      show (if c.toNat ≥ 65 ∧ c.toNat ≤ 90 then Char.ofNat (c.toNat + 32) else c)
        = Char.ofNat (c.toNat + 32)
      exact if_pos h
    rw [hc, key c.toNat h.1 h.2]
  · have hc : c.toLower = c := by
      show (if c.toNat ≥ 65 ∧ c.toNat ≤ 90 then Char.ofNat (c.toNat + 32) else c) = c
      exact if_neg h
    rw [hc, hc]

/-- Stripping a scheme keeps only characters of the original string. -/
theorem mem_stripScheme {c : Char} {s : Str} (h : c ∈ stripScheme s) : c ∈ s := by
  unfold stripScheme at h
  split at h
  · exact List.mem_of_mem_drop h
  · split at h
    · exact List.mem_of_mem_drop h
    · exact h

/-- Stripping scheme and `www.` keeps only characters of the original
string. -/
theorem mem_stripSchemeWww {c : Char} {s : Str} (h : c ∈ stripSchemeWww s) : c ∈ s := by
  unfold stripSchemeWww at h
  split at h
  · exact mem_stripScheme (List.mem_of_mem_drop h)
  · exact mem_stripScheme h

/-- Mapping a function that fixes every member of a list fixes the
list. -/
theorem map_eq_self_of {α : Type} {f : α → α} {l : List α}
    (h : ∀ a ∈ l, f a = a) : l.map f = l :=
  (List.map_congr_left (g := id) h).trans (List.map_id l)

/-- Every character of a normalized domain is a fixed point of the case
mapping, because it survived the lowercasing pass. -/
theorem toLower_mem_normalizeDomain {c : Char} {s : Str}
    (h : c ∈ normalizeDomain s) : c.toLower = c := by
  unfold normalizeDomain at h
  have h1 : c ∈ stripSchemeWww ((trim s).map Char.toLower) :=
    List.Sublist.mem h (List.takeWhile_sublist _)
  have h2 : c ∈ (trim s).map Char.toLower := mem_stripSchemeWww h1
  obtain ⟨a, _, rfl⟩ := List.mem_map.1 h2
  exact toLower_fix a

/-- The output of the normalizer is already lowercase. -/
theorem map_toLower_normalizeDomain (s : Str) :
    (normalizeDomain s).map Char.toLower = normalizeDomain s :=
  map_eq_self_of (fun _ hc => toLower_mem_normalizeDomain hc)

/-- The output of the normalizer contains no slash, so a second
`split('/')[0]` is the identity on it. -/
theorem takeWhile_normalizeDomain (s : Str) :
    (normalizeDomain s).takeWhile (fun c => c != '/') = normalizeDomain s := by
  unfold normalizeDomain
  exact List.takeWhile_idem

/-- A string that is already trimmed, lowercase, free of a leading
scheme or `www.`, and free of slashes is a fixed point of the
normalizer. -/
theorem normalizeDomain_fixpoint {y : Str}
    (ht : trim y = y) (hl : y.map Char.toLower = y)
    (h2 : y.take 7 ≠ ("http://").data) (h3 : y.take 8 ≠ ("https://").data)
    (h4 : y.take 4 ≠ ("www.").data)
    (hw : y.takeWhile (fun c => c != '/') = y) :
    normalizeDomain y = y := by
  have hs : stripScheme y = y := by
    unfold stripScheme
    rw [if_neg h2, if_neg h3]
  have hsw : stripSchemeWww y = y := by
    unfold stripSchemeWww
    rw [hs, if_neg h4]
  unfold normalizeDomain
  rw [ht, hl, hsw, hw]

/-- Claim C6, amended — the normalizer is idempotent on every input whose
first normalization does not itself retain a leading scheme or `www.`
prefix or surrounding whitespace. Repeated `www.` prefixes (and a space
kept before a stripped path) make the unrestricted claim false, see the
counterexample. -/
theorem normalize_idempotent_of_clean (s : Str)
    (ht : trim (normalizeDomain s) = normalizeDomain s)
    (h2 : (normalizeDomain s).take 7 ≠ ("http://").data)
    (h3 : (normalizeDomain s).take 8 ≠ ("https://").data)
    (h4 : (normalizeDomain s).take 4 ≠ ("www.").data) :
    normalizeDomain (normalizeDomain s) = normalizeDomain s :=
  normalizeDomain_fixpoint ht (map_toLower_normalizeDomain s) h2 h3 h4
    (takeWhile_normalizeDomain s)

/-- Counterexample to C6 as stated: normalizing "www.www.example.com"
yields "www.example.com", and normalizing that again strips a second
`www.`, so `normalize (normalize x) ≠ normalize x`. -/
theorem normalize_not_idempotent :
    normalizeDomain (normalizeDomain ("www.www.example.com").data)
      ≠ normalizeDomain ("www.www.example.com").data := by
  decide

/-- Witness for the amended C6 at a mixed-case URL input. -/
theorem normalize_idempotent_of_clean_witness :
    trim (normalizeDomain ("HTTP://www.Example.com/page").data)
        = normalizeDomain ("HTTP://www.Example.com/page").data
    ∧ normalizeDomain (normalizeDomain ("HTTP://www.Example.com/page").data)
        = normalizeDomain ("HTTP://www.Example.com/page").data :=
  ⟨by decide,
   normalize_idempotent_of_clean ("HTTP://www.Example.com/page").data
     (by decide) (by decide) (by decide) (by decide)⟩

/-- Counterexample to C7 as stated: the checker-mode caller filters
before normalization, so the raw line "www." (non-empty, hence kept)
normalizes to the empty token, which reaches the checked domain set. -/
theorem empty_token_reaches_domain_set :
    ([] : Str) ∈ parseCheckerInput ("www.").data := by
  decide

/-- Claim C7, amended — the normalizer is a deterministic total function
(definitionally, every input produces a token), and the checker-mode
caller filters out empty trimmed raw lines before normalization; empty
normalization results themselves are not filtered and can reach the
checked domain set. -/
theorem checker_raw_lines_nonempty (input : Str) :
    (checkerRawLines input).all (fun l => !l.isEmpty) = true := by
  rw [List.all_eq_true]
  intro l hl
  have hne := List.of_mem_filter hl
  cases l with
  | nil => simp at hne
  | cons a l => rfl

/-- Settling a list of completions never changes the length of the
result slot array. -/
theorem foldl_set_length (comps : List (Nat × DomainResult)) :
    ∀ init : List (Option DomainResult),
      (comps.foldl (fun acc p => acc.set p.1 (some p.2)) init).length
        = init.length := by
  induction comps with
  | nil =>
      intro init
      rfl
  | cons p rest ih =>
      intro init
      rw [List.foldl_cons, ih, List.length_set]

/-- Positions never written by any completion keep their initial slot
value. -/
theorem foldl_set_not_mem (j : Nat) :
    ∀ (comps : List (Nat × DomainResult)) (init : List (Option DomainResult)),
      j ∉ comps.map Prod.fst →
      (comps.foldl (fun acc p => acc.set p.1 (some p.2)) init)[j]? = init[j]? := by
  intro comps
  induction comps with
  | nil =>
      intro init _
      rfl
  | cons p rest ih =>
      intro init hj
      rw [List.map_cons, List.mem_cons] at hj
      push_neg at hj
      rw [List.foldl_cons, ih _ hj.2, List.getElem?_set_ne (Ne.symm hj.1)]

/-- When each position is completed at most once, the slot of a completed
position holds that completion's result, whatever the completion order. -/
theorem foldl_set_mem (j : Nat) (v : DomainResult) :
    ∀ (comps : List (Nat × DomainResult)) (init : List (Option DomainResult)),
      (j, v) ∈ comps → (comps.map Prod.fst).Nodup → j < init.length →
      (comps.foldl (fun acc p => acc.set p.1 (some p.2)) init)[j]?
        = some (some v) := by
  intro comps
  induction comps with
  | nil =>
      intro init h _ _
      simp at h
  | cons p rest ih =>
      intro init hmem hnd hlt
      rw [List.map_cons, List.nodup_cons] at hnd
      rcases List.mem_cons.1 hmem with heq | hmem2
      · have hp1 : p.1 = j := by rw [← heq]
        have hp2 : p.2 = v := by rw [← heq]
        rw [List.foldl_cons, foldl_set_not_mem j rest _ (hp1 ▸ hnd.1), hp1, hp2,
          List.getElem?_set_self hlt]
      · rw [List.foldl_cons]
        exact ih _ hmem2 hnd.2 (by rw [List.length_set]; exact hlt)

/-- Claim C10 — check endpoint order and length preservation: whatever
order the individual probes complete in (any permutation of the
position-tagged probe results), the assembled 200 response is exactly one
entry per input domain, in input order, and each entry's domain field
equals the corresponding input domain. -/
theorem check_endpoint_order (env : Str → FetchOutcome) (ds : List Str)
    (comps : List (Nat × DomainResult))
    (hperm : comps.Perm (checkDomainsEndpoint env ds).enum) :
    settlePromises ds.length comps
        = (checkDomainsEndpoint env ds).map some
    ∧ (checkDomainsEndpoint env ds).map (fun r => r.domain) = ds := by
  refine ⟨?_, checkDomainsEndpoint_domains env ds⟩
  have hRlen : (checkDomainsEndpoint env ds).length = ds.length :=
    List.length_map _ _
  have hnd : (comps.map Prod.fst).Nodup := by
    have h1 := hperm.map Prod.fst
    rw [h1.nodup_iff, List.enum_map_fst]
    exact List.nodup_range _
  apply List.ext_getElem?
  intro j
  by_cases hj : j < ds.length
  · have hjR : j < (checkDomainsEndpoint env ds).length := by rw [hRlen]; exact hj
    have hmem : (j, (checkDomainsEndpoint env ds)[j]) ∈ comps := by
      rw [hperm.mem_iff, List.mem_enum_iff_getElem?]
      exact List.getElem?_eq_getElem hjR
    rw [settlePromises,
      foldl_set_mem j _ comps _ hmem hnd (by rw [List.length_replicate]; exact hj),
      List.getElem?_map, List.getElem?_eq_getElem hjR]
    rfl
  · have h1 : (settlePromises ds.length comps).length ≤ j := by
      rw [settlePromises, foldl_set_length, List.length_replicate]
      omega
    have h2 : ((checkDomainsEndpoint env ds).map some).length ≤ j := by
      rw [List.length_map, hRlen]
      omega
    rw [List.getElem?_eq_none h1, List.getElem?_eq_none h2]

/-- Witness for C10: two domains whose probes complete in reverse order
still assemble into the input-ordered response. -/
theorem check_endpoint_order_witness :
    ([(1, checkDomainAvailability ("b.io").data .otherError),
      (0, checkDomainAvailability ("a.com").data .otherError)].Perm
        (checkDomainsEndpoint (fun _ => .otherError)
          [("a.com").data, ("b.io").data]).enum)
    ∧ settlePromises 2
        [(1, checkDomainAvailability ("b.io").data .otherError),
         (0, checkDomainAvailability ("a.com").data .otherError)]
        = (checkDomainsEndpoint (fun _ => .otherError)
            [("a.com").data, ("b.io").data]).map some :=
  ⟨by decide,
   (check_endpoint_order (fun _ => .otherError) [("a.com").data, ("b.io").data]
      [(1, checkDomainAvailability ("b.io").data .otherError),
       (0, checkDomainAvailability ("a.com").data .otherError)] (by decide)).1⟩

/-- Witness for C9: a one-domain list against a response body that does
contain the availability tag for that domain. -/
theorem xml_backend_contract_witness :
    (⟨("a.com").data, Availability.Available⟩ : DomainResult)
        ∈ namecheapResults [("a.com").data]
            (("<ApiResponse><DomainCheckResult Domain=\"a.com\" Available=\"true\"/></ApiResponse>").data)
    ∧ ((⟨("a.com").data, Availability.Available⟩ : DomainResult).availability
          = .Available
        ↔ checkTag ("a.com").data
            <:+: ("<ApiResponse><DomainCheckResult Domain=\"a.com\" Available=\"true\"/></ApiResponse>").data) :=
  ⟨by decide,
   ((xml_backend_contract [("a.com").data]
      (("<ApiResponse><DomainCheckResult Domain=\"a.com\" Available=\"true\"/></ApiResponse>").data)).2
      _ (by decide)).1⟩

end DomainCheck
